import Mathlib

/-!
Verification of the jwt-compact core (src/lib.rs): the token codec
(`token`, `compact_token`), the untrusted-token parser
(`UntrustedToken::try_from`) and the integrity validator
(`validate_integrity`).

Embedding conventions: wire strings are `List Char`; byte buffers are
`List Nat` with values below 256; base64url (no padding) is implemented
executably; the external serde collaborators are modelled as explicit
function parameters (JSON text parsing, generic claims
(de)serialization) while the structural semantics of the derived
`CompleteHeader` deserializer is an executable Lean function; fallible
operations return `Option` or `Except`.
-/

namespace JwtCompact

/-- The base64url alphabet (RFC 4648 section 5), used without padding. -/
def b64Alphabet : List Char :=
  ['A', 'B', 'C', 'D', 'E', 'F', 'G', 'H', 'I', 'J', 'K', 'L', 'M',
   'N', 'O', 'P', 'Q', 'R', 'S', 'T', 'U', 'V', 'W', 'X', 'Y', 'Z',
   'a', 'b', 'c', 'd', 'e', 'f', 'g', 'h', 'i', 'j', 'k', 'l', 'm',
   'n', 'o', 'p', 'q', 'r', 's', 't', 'u', 'v', 'w', 'x', 'y', 'z',
   '0', '1', '2', '3', '4', '5', '6', '7', '8', '9', '-', '_']

/-- Character encoding a 6-bit value. -/
def b64Char (n : Nat) : Char := b64Alphabet.getD n 'A'

/-- The 6-bit value of a base64url alphabet character; `none` outside the
alphabet. -/
def b64Index (c : Char) : Option Nat :=
  if 'A' ≤ c ∧ c ≤ 'Z' then some (c.toNat - 65)
  else if 'a' ≤ c ∧ c ≤ 'z' then some (c.toNat - 97 + 26)
  else if '0' ≤ c ∧ c ≤ '9' then some (c.toNat - 48 + 52)
  else if c = '-' then some 62
  else if c = '_' then some 63
  else none

/-- base64url (no padding) encoding of a byte sequence
(`base64::encode_config` with `URL_SAFE_NO_PAD`). -/
def base64Encode : List Nat → List Char
  | [] => []
  | [b1] => [b64Char (b1 / 4), b64Char (b1 % 4 * 16)]
  | [b1, b2] =>
      [b64Char (b1 / 4), b64Char (b1 % 4 * 16 + b2 / 16), b64Char (b2 % 16 * 4)]
  | b1 :: b2 :: b3 :: rest =>
      b64Char (b1 / 4) :: b64Char (b1 % 4 * 16 + b2 / 16) ::
      b64Char (b2 % 16 * 4 + b3 / 64) :: b64Char (b3 % 64) :: base64Encode rest

/-- base64url (no padding) decoding (`base64::decode_config` with
`URL_SAFE_NO_PAD`).  Fails on characters outside the alphabet, on an
input length congruent to 1 mod 4, and on nonzero trailing bits in a
final partial group. -/
def base64Decode : List Char → Option (List Nat)
  | [] => some []
  | [_] => none
  | [c1, c2] => do
      let v1 ← b64Index c1
      let v2 ← b64Index c2
      if v2 % 16 = 0 then some [v1 * 4 + v2 / 16] else none
  | [c1, c2, c3] => do
      let v1 ← b64Index c1
      let v2 ← b64Index c2
      let v3 ← b64Index c3
      if v3 % 4 = 0 then
        some [v1 * 4 + v2 / 16, v2 % 16 * 16 + v3 / 4]
      else none
  | c1 :: c2 :: c3 :: c4 :: rest => do
      let v1 ← b64Index c1
      let v2 ← b64Index c2
      let v3 ← b64Index c3
      let v4 ← b64Index c4
      let tail ← base64Decode rest
      some ((v1 * 4 + v2 / 16) :: (v2 % 16 * 16 + v3 / 4) :: (v3 % 4 * 64 + v4) :: tail)

/-- One step of Rust `str::splitn`: the part of the string before the
first separator occurrence, and the remainder after it when present. -/
def splitAtSep (sep : Char) : List Char → List Char × Option (List Char)
  | [] => ([], none)
  | c :: cs =>
      if c = sep then ([], some cs)
      else
        let r := splitAtSep sep cs
        (c :: r.1, r.2)

/-- Rust `s.splitn(n, sep)`: at most `n` pieces; the final piece keeps
any further separator occurrences. -/
def splitn (sep : Char) : Nat → List Char → List (List Char)
  | 0, _ => []
  | 1, s => [s]
  | n + 2, s =>
      match splitAtSep sep s with
      | (piece, none) => [piece]
      | (piece, some rest) => piece :: splitn sep (n + 1) rest

/-- Rust `s.rsplitn(2, sep).nth(1)`: everything before the last
separator occurrence, `none` when the separator does not occur. -/
def rsplitn2Second (sep : Char) (s : List Char) : Option (List Char) :=
  match splitAtSep sep s.reverse with
  | (_, none) => none
  | (_, some rest) => some rest.reverse

/-- JSON values.  Objects keep duplicate keys and field order, which is
what the duplicate-`alg`-key checks are about. -/
inductive Json where
  | null
  | bool (b : Bool)
  | num (n : Int)
  | str (s : String)
  | arr (elems : List Json)
  | obj (fields : List (String × Json))

/-- JWT header (`Header` in src/lib.rs): only key-locator fields, never
the algorithm name. -/
structure Header where
  key_set_url : Option String := none
  key_id : Option String := none
  certificate_url : Option String := none
  certificate_thumbprint : Option String := none
  signature_type : Option String := none
  deriving DecidableEq

/-- Wire-level header (`CompleteHeader` in src/lib.rs): the algorithm
name, the optional content type, and the flattened `Header`. -/
structure CompleteHeader where
  algorithm : String
  content_type : Option String
  inner : Header
  deriving DecidableEq

/-- Claims encoding declared by the header (`ContentType`). -/
inductive ContentType where
  | json
  | cbor
  deriving DecidableEq

/-- Parse errors (`ParseError` in the error module; payloads of the
base64 and header variants are dropped). -/
inductive ParseError where
  | invalidTokenStructure
  | base64
  | malformedHeader
  | unsupportedContentType (cty : String)
  deriving DecidableEq

/-- Validation errors (`ValidationError`; payloads dropped). -/
inductive ValidationError where
  | algorithmMismatch
  | malformedSignature
  | malformedClaims
  | malformedCborClaims
  | invalidSignature
  deriving DecidableEq

/-- Creation errors (`CreationError`; payloads dropped). -/
inductive CreationError where
  | header
  | claims
  | cborClaims
  deriving DecidableEq

/-- Parsed but not yet validated token (`UntrustedToken`).  The
`signed_data` field is the span of the original input before the last
separator; `serialized_claims` stays opaque bytes. -/
structure UntrustedToken where
  signed_data : List Char
  header : Header
  algorithm : String
  content_type : ContentType
  serialized_claims : List Nat
  signature : List Nat

/-- Token with validated integrity (`Token<T>`). -/
structure Token (T : Type) where
  header : Header
  claims : T

/-- A JWT signing algorithm: the `Algorithm` trait together with the
`AlgorithmSignature` bound of its signature type.  Messages are wire
spans (`List Char`), signatures convert to and from byte buffers. -/
structure Algorithm (SigningKey VerifyingKey Signature : Type) where
  name : String
  sign : SigningKey → List Char → Signature
  verify_signature : Signature → VerifyingKey → List Char → Bool
  sig_try_from_slice : List Nat → Option Signature
  sig_as_bytes : Signature → List Nat

/-- Serialization of an optional string field under serde
`skip_serializing_if Option::is_none`. -/
def optField (k : String) : Option String → List (String × Json)
  | none => []
  | some v => [(k, Json.str v)]

/-- JSON object fields of a `Header` under its serde renames, in
declaration order, skipping absent fields. -/
def Header.jsonFields (h : Header) : List (String × Json) :=
  optField "jku" h.key_set_url ++ optField "kid" h.key_id ++
  optField "x5u" h.certificate_url ++ optField "x5t" h.certificate_thumbprint ++
  optField "typ" h.signature_type

/-- The JSON object value serialized by `serde_json::to_string` for a
`CompleteHeader`: mandatory `alg`, optional `cty`, then the flattened
inner header fields. -/
def completeHeaderToJson (ch : CompleteHeader) : Json :=
  Json.obj (("alg", Json.str ch.algorithm) ::
    (optField "cty" ch.content_type ++ ch.inner.jsonFields))

/-- Accumulator of the header deserializer: each known field is seen at
most once. -/
structure HdrAcc where
  alg : Option String := none
  cty : Option String := none
  jku : Option String := none
  kid : Option String := none
  x5u : Option String := none
  x5t : Option String := none
  typ : Option String := none

/-- Record a string field value: fails when the field was already seen
(duplicate key) or the value is not a JSON string (wrong type). -/
def setStr : Option String → Json → Option (Option String)
  | none, Json.str s => some (some s)
  | _, _ => none

/-- Modelled from the spec: one entry step of the serde-derived
`CompleteHeader` deserializer (the derive expansion is not part of
src/lib.rs).  A known key must carry a string value and must not repeat;
unknown keys are ignored. -/
def hdrStep (acc : HdrAcc) : String × Json → Option HdrAcc
  | (k, v) =>
    if k = "alg" then (setStr acc.alg v).map fun w => { acc with alg := w }
    else if k = "cty" then (setStr acc.cty v).map fun w => { acc with cty := w }
    else if k = "jku" then (setStr acc.jku v).map fun w => { acc with jku := w }
    else if k = "kid" then (setStr acc.kid v).map fun w => { acc with kid := w }
    else if k = "x5u" then (setStr acc.x5u v).map fun w => { acc with x5u := w }
    else if k = "x5t" then (setStr acc.x5t v).map fun w => { acc with x5t := w }
    else if k = "typ" then (setStr acc.typ v).map fun w => { acc with typ := w }
    else some acc

/-- Left fold of `hdrStep` over the object entries in order, stopping at
the first failure. -/
def hdrFold (acc : HdrAcc) : List (String × Json) → Option HdrAcc
  | [] => some acc
  | kv :: rest =>
      match hdrStep acc kv with
      | none => none
      | some acc₁ => hdrFold acc₁ rest

/-- Modelled from the spec: deserialization of a `CompleteHeader` from a
JSON value (`serde_json::from_slice` after text parsing; the derive
expansion is not part of src/lib.rs).  The value must be an object with
a mandatory string `alg` (missing, non-string or duplicate key fails),
an optional string `cty`, and the flattened `Header` fields. -/
def completeHeaderFromJson : Json → Option CompleteHeader
  | Json.obj fields =>
    match hdrFold {} fields with
    | none => none
    | some acc =>
      match acc.alg with
      | none => none
      | some a =>
        some { algorithm := a, content_type := acc.cty,
               inner := { key_set_url := acc.jku, key_id := acc.kid,
                          certificate_url := acc.x5u,
                          certificate_thumbprint := acc.x5t,
                          signature_type := acc.typ } }
  | _ => none

/-- ASCII-lowercase a character (`u8::to_ascii_lowercase`). -/
def asciiLowercase (c : Char) : Char :=
  if 'A' ≤ c ∧ c ≤ 'Z' then Char.ofNat (c.toNat + 32) else c

/-- Rust `str::eq_ignore_ascii_case`. -/
def eqIgnoreAsciiCase (a b : String) : Bool :=
  a.data.map asciiLowercase == b.data.map asciiLowercase

/-- Content-type determination of the parser (the `match
header.content_type` in `UntrustedToken::try_from`): absent or
case-insensitive "json" is JSON, case-insensitive "cbor" is CBOR, any
other value is an unsupported-content-type error carrying the value. -/
def contentTypeOf : Option String → Except ParseError ContentType
  | none => .ok ContentType.json
  | some s =>
    if eqIgnoreAsciiCase s "json" then .ok ContentType.json
    else if eqIgnoreAsciiCase s "cbor" then .ok ContentType.cbor
    else .error (ParseError.unsupportedContentType s)

/-- Signature decoding of the parser: a zeroed buffer of
`3 * (len + 3) / 4` bytes, `decode_config_slice` into it, then
`truncate` to the number of bytes written.  A decoded length beyond the
buffer would not fit and is modelled as failure. -/
def decodeSignature (seg : List Char) : Option (List Nat) :=
  match base64Decode seg with
  | none => none
  | some bytes =>
    let buffer : List Nat := List.replicate (3 * (seg.length + 3) / 4) 0
    if bytes.length ≤ buffer.length then
      some (List.take bytes.length (bytes ++ List.drop bytes.length buffer))
    else none

/-- Parsing, `UntrustedToken::try_from`: split into at most four pieces and
require exactly three segments; base64url-decode header, claims and
signature; parse the header bytes (`jsonParse` is the external JSON text
parser) and deserialize the wire header; determine the content type;
capture the span before the last separator as `signed_data`. -/
def UntrustedToken.try_from (jsonParse : List Nat → Option Json)
    (s : List Char) : Except ParseError UntrustedToken :=
  match splitn '.' 4 s with
  | [headerSeg, claimsSeg, signatureSeg] =>
    match base64Decode headerSeg with
    | none => .error ParseError.base64
    | some headerBytes =>
    match base64Decode claimsSeg with
    | none => .error ParseError.base64
    | some serializedClaims =>
    match decodeSignature signatureSeg with
    | none => .error ParseError.base64
    | some decodedSignature =>
    match jsonParse headerBytes with
    | none => .error ParseError.malformedHeader
    | some headerJson =>
    match completeHeaderFromJson headerJson with
    | none => .error ParseError.malformedHeader
    | some header =>
    match contentTypeOf header.content_type with
    | .error e => .error e
    | .ok contentType =>
      .ok { signed_data := (rsplitn2Second '.' s).getD [],
            header := header.inner,
            algorithm := header.algorithm,
            content_type := contentType,
            serialized_claims := serializedClaims,
            signature := decodedSignature }
  | _ => .error ParseError.invalidTokenStructure

/-- The complete header stamped by `token`: the algorithm's static name
and no content type. -/
def tokenCompleteHeader {SK VK Sig : Type} (A : Algorithm SK VK Sig)
    (header : Header) : CompleteHeader :=
  { algorithm := A.name, content_type := none, inner := header }

/-- The complete header stamped by `compact_token`: the algorithm's
static name and content type "CBOR". -/
def compactTokenCompleteHeader {SK VK Sig : Type} (A : Algorithm SK VK Sig)
    (header : Header) : CompleteHeader :=
  { algorithm := A.name, content_type := some "CBOR", inner := header }

/-- Issuance, `AlgorithmExt::token`: serialize the stamped complete header
(`jsonBytes` is the external `serde_json::to_string`), base64url-encode
it, append a separator and the base64url-encoded JSON claims, sign the
buffer written so far, and append a separator and the base64url-encoded
signature bytes. -/
def token {SK VK Sig T : Type} (A : Algorithm SK VK Sig)
    (jsonBytes : Json → List Nat) (claimsToJsonBytes : T → Option (List Nat))
    (header : Header) (claims : T) (signing_key : SK) :
    Except CreationError (List Char) :=
  let headerBytes := jsonBytes (completeHeaderToJson (tokenCompleteHeader A header))
  match claimsToJsonBytes claims with
  | none => .error CreationError.claims
  | some claimsBytes =>
    let buffer := base64Encode headerBytes ++ '.' :: base64Encode claimsBytes
    let signature := A.sign signing_key buffer
    .ok (buffer ++ '.' :: base64Encode (A.sig_as_bytes signature))

/-- Compact issuance, `AlgorithmExt::compact_token`: as `token`, but the complete header
carries content type "CBOR" and the claims are CBOR-serialized. -/
def compact_token {SK VK Sig T : Type} (A : Algorithm SK VK Sig)
    (jsonBytes : Json → List Nat) (claimsToCborBytes : T → Option (List Nat))
    (header : Header) (claims : T) (signing_key : SK) :
    Except CreationError (List Char) :=
  let headerBytes := jsonBytes (completeHeaderToJson (compactTokenCompleteHeader A header))
  match claimsToCborBytes claims with
  | none => .error CreationError.cborClaims
  | some claimsBytes =>
    let buffer := base64Encode headerBytes ++ '.' :: base64Encode claimsBytes
    let signature := A.sign signing_key buffer
    .ok (buffer ++ '.' :: base64Encode (A.sig_as_bytes signature))

/-- Validation, `AlgorithmExt::validate_integrity`: reject on algorithm-name
mismatch; reconstruct the signature from its bytes; deserialize the
claims bytes in the declared format (`claimsFromJsonBytes` and
`claimsFromCborBytes` are the external serde deserializers); verify the
signature over the captured signed data. -/
def validate_integrity {SK VK Sig T : Type} (A : Algorithm SK VK Sig)
    (claimsFromJsonBytes claimsFromCborBytes : List Nat → Option T)
    (t : UntrustedToken) (verifying_key : VK) :
    Except ValidationError (Token T) :=
  if A.name ≠ t.algorithm then .error ValidationError.algorithmMismatch
  else
    match A.sig_try_from_slice t.signature with
    | none => .error ValidationError.malformedSignature
    | some signature =>
      let claimsResult : Except ValidationError T :=
        match t.content_type with
        | ContentType.json =>
          match claimsFromJsonBytes t.serialized_claims with
          | none => .error ValidationError.malformedClaims
          | some c => .ok c
        | ContentType.cbor =>
          match claimsFromCborBytes t.serialized_claims with
          | none => .error ValidationError.malformedCborClaims
          | some c => .ok c
      match claimsResult with
      | .error e => .error e
      | .ok claims =>
        if A.verify_signature signature verifying_key t.signed_data then
          .ok { header := t.header, claims := claims }
        else .error ValidationError.invalidSignature

/-- The entries of a JSON object field list with key `alg`. -/
def algEntries (fields : List (String × Json)) : List (String × Json) :=
  fields.filter fun kv => kv.1 == "alg"

/-- Lookup of the first field with a given key in a JSON object. -/
def jsonLookup (j : Json) (k : String) : Option Json :=
  match j with
  | Json.obj fields => (fields.find? fun kv => kv.1 == k).map fun kv => kv.2
  | _ => none

/-! ### base64url lemmas -/

theorem b64Index_b64Char : ∀ n, n < 64 → b64Index (b64Char n) = some n := by
  decide

theorem b64Char_ne_dot (n : Nat) : b64Char n ≠ '.' := by
  by_cases h : n < 64
  · exact (by decide : ∀ m, m < 64 → b64Char m ≠ '.') n h
  · unfold b64Char
    rw [List.getD_eq_default]
    · decide
    · have hl : b64Alphabet.length = 64 := by decide
      omega

theorem b64Char_ascii (n : Nat) : (b64Char n).toNat < 128 := by
  by_cases h : n < 64
  · exact (by decide : ∀ m, m < 64 → (b64Char m).toNat < 128) n h
  · unfold b64Char
    rw [List.getD_eq_default]
    · decide
    · have hl : b64Alphabet.length = 64 := by decide
      omega

theorem mem_base64Encode (c : Char) :
    ∀ (bs : List Nat), c ∈ base64Encode bs → ∃ v, c = b64Char v := by
  intro bs
  induction bs using base64Encode.induct with
  | case1 => intro h; simp [base64Encode] at h
  | case2 b1 =>
    intro h
    simp only [base64Encode, List.mem_cons, List.not_mem_nil, or_false] at h
    rcases h with h | h <;> exact ⟨_, h⟩
  | case3 b1 b2 =>
    intro h
    simp only [base64Encode, List.mem_cons, List.not_mem_nil, or_false] at h
    rcases h with h | h | h <;> exact ⟨_, h⟩
  | case4 b1 b2 b3 rest ih =>
    intro h
    simp only [base64Encode, List.mem_cons] at h
    rcases h with h | h | h | h | h
    · exact ⟨_, h⟩
    · exact ⟨_, h⟩
    · exact ⟨_, h⟩
    · exact ⟨_, h⟩
    · exact ih h

theorem not_dot_mem_base64Encode (bs : List Nat) : '.' ∉ base64Encode bs := by
  intro h
  obtain ⟨v, hv⟩ := mem_base64Encode '.' bs h
  exact b64Char_ne_dot v hv.symm

theorem base64Encode_ascii (bs : List Nat) (c : Char) (h : c ∈ base64Encode bs) :
    c.toNat < 128 := by
  obtain ⟨v, hv⟩ := mem_base64Encode c bs h
  rw [hv]
  exact b64Char_ascii v

theorem base64Decode_base64Encode :
    ∀ (bs : List Nat), (∀ b ∈ bs, b < 256) →
      base64Decode (base64Encode bs) = some bs := by
  intro bs
  induction bs using base64Encode.induct with
  | case1 => intro h; rfl
  | case2 b1 =>
    intro h
    have h1 : b1 < 256 := h b1 (by simp)
    have e1 : b64Index (b64Char (b1 / 4)) = some (b1 / 4) :=
      b64Index_b64Char _ (by omega)
    have e2 : b64Index (b64Char (b1 % 4 * 16)) = some (b1 % 4 * 16) :=
      b64Index_b64Char _ (by omega)
    simp [base64Encode, base64Decode, e1, e2, Nat.mul_mod_left]
    omega
  | case3 b1 b2 =>
    intro h
    have h1 : b1 < 256 := h b1 (by simp)
    have h2 : b2 < 256 := h b2 (by simp)
    have e1 : b64Index (b64Char (b1 / 4)) = some (b1 / 4) :=
      b64Index_b64Char _ (by omega)
    have e2 : b64Index (b64Char (b1 % 4 * 16 + b2 / 16)) = some (b1 % 4 * 16 + b2 / 16) :=
      b64Index_b64Char _ (by omega)
    have e3 : b64Index (b64Char (b2 % 16 * 4)) = some (b2 % 16 * 4) :=
      b64Index_b64Char _ (by omega)
    simp [base64Encode, base64Decode, e1, e2, e3, Nat.mul_mod_left]
    omega
  | case4 b1 b2 b3 rest ih =>
    intro h
    have h1 : b1 < 256 := h b1 (by simp)
    have h2 : b2 < 256 := h b2 (by simp)
    have h3 : b3 < 256 := h b3 (by simp)
    have e1 : b64Index (b64Char (b1 / 4)) = some (b1 / 4) :=
      b64Index_b64Char _ (by omega)
    have e2 : b64Index (b64Char (b1 % 4 * 16 + b2 / 16)) = some (b1 % 4 * 16 + b2 / 16) :=
      b64Index_b64Char _ (by omega)
    have e3 : b64Index (b64Char (b2 % 16 * 4 + b3 / 64)) = some (b2 % 16 * 4 + b3 / 64) :=
      b64Index_b64Char _ (by omega)
    have e4 : b64Index (b64Char (b3 % 64)) = some (b3 % 64) :=
      b64Index_b64Char _ (by omega)
    have ihr := ih (fun b hb => h b (by simp [hb]))
    simp [base64Encode, base64Decode, e1, e2, e3, e4, ihr]
    omega

theorem base64Decode_length :
    ∀ (cs : List Char) (bs : List Nat), base64Decode cs = some bs →
      bs.length ≤ 3 * (cs.length + 3) / 4 := by
  intro cs
  induction cs using base64Decode.induct with
  | case1 =>
    intro bs h
    simp only [base64Decode, Option.some.injEq] at h
    subst h
    simp
  | case2 c1 =>
    intro bs h
    simp [base64Decode] at h
  | case3 c1 c2 =>
    intro bs h
    simp only [base64Decode, Option.bind_eq_bind, Option.bind_eq_some] at h
    obtain ⟨v1, hv1, v2, hv2, h⟩ := h
    split at h
    · simp only [Option.some.injEq] at h
      subst h
      simp
    · simp at h
  | case4 c1 c2 c3 =>
    intro bs h
    simp only [base64Decode, Option.bind_eq_bind, Option.bind_eq_some] at h
    obtain ⟨v1, hv1, v2, hv2, v3, hv3, h⟩ := h
    split at h
    · simp only [Option.some.injEq] at h
      subst h
      simp
    · simp at h
  | case5 c1 c2 c3 c4 rest ih =>
    intro bs h
    simp only [base64Decode, Option.bind_eq_bind, Option.bind_eq_some] at h
    obtain ⟨v1, hv1, v2, hv2, v3, hv3, v4, hv4, tail, htail, h⟩ := h
    simp only [Option.some.injEq] at h
    subst h
    have := ih tail htail
    simp only [List.length_cons]
    omega

theorem decodeSignature_eq (seg : List Char) :
    decodeSignature seg = base64Decode seg := by
  rcases h : base64Decode seg with _ | bs
  · simp [decodeSignature, h]
  · have hlen := base64Decode_length seg bs h
    simp only [decodeSignature, h, List.length_replicate]
    rw [if_pos hlen, List.take_left]

/-! ### splitting lemmas -/

theorem splitAtSep_of_not_mem (sep : Char) :
    ∀ (s : List Char), sep ∉ s → splitAtSep sep s = (s, none) := by
  intro s
  induction s with
  | nil => intro h; rfl
  | cons c cs ih =>
    intro h
    have hc : ¬c = sep := fun e => h (by simp [e])
    have hcs : sep ∉ cs := fun hm => h (by simp [hm])
    simp [splitAtSep, hc, ih hcs]

theorem splitAtSep_append (sep : Char) :
    ∀ (pre rest : List Char), sep ∉ pre →
      splitAtSep sep (pre ++ sep :: rest) = (pre, some rest) := by
  intro pre
  induction pre with
  | nil => intro rest h; simp [splitAtSep]
  | cons c cs ih =>
    intro rest h
    have hc : ¬c = sep := fun e => h (by simp [e])
    have hcs : sep ∉ cs := fun hm => h (by simp [hm])
    simp [splitAtSep, hc, ih rest hcs]

theorem splitAtSep_inv_none (sep : Char) :
    ∀ (s pre : List Char), splitAtSep sep s = (pre, none) →
      s = pre ∧ sep ∉ pre := by
  intro s
  induction s with
  | nil =>
    intro pre h
    simp only [splitAtSep, Prod.mk.injEq] at h
    exact ⟨h.1.symm ▸ rfl, h.1 ▸ (by simp)⟩
  | cons c cs ih =>
    intro pre h
    rcases hr : splitAtSep sep cs with ⟨p, o⟩
    by_cases hc : c = sep
    · rw [splitAtSep, if_pos hc] at h
      simp at h
    · rw [splitAtSep, if_neg hc] at h
      simp only [hr, Prod.mk.injEq] at h
      obtain ⟨h1, h2⟩ := h
      subst h2
      obtain ⟨hs, hm⟩ := ih p hr
      constructor
      · rw [← h1, hs]
      · rw [← h1]
        simp only [List.mem_cons, not_or]
        exact ⟨fun e => hc e.symm, hm⟩

theorem splitAtSep_inv_some (sep : Char) :
    ∀ (s pre rest : List Char), splitAtSep sep s = (pre, some rest) →
      s = pre ++ sep :: rest ∧ sep ∉ pre := by
  intro s
  induction s with
  | nil =>
    intro pre rest h
    simp [splitAtSep] at h
  | cons c cs ih =>
    intro pre rest h
    rcases hr : splitAtSep sep cs with ⟨p, o⟩
    by_cases hc : c = sep
    · rw [splitAtSep, if_pos hc] at h
      simp only [Prod.mk.injEq, Option.some.injEq] at h
      obtain ⟨h1, h2⟩ := h
      subst h1
      subst h2
      rw [hc]
      exact ⟨rfl, by simp⟩
    · rw [splitAtSep, if_neg hc] at h
      simp only [hr, Prod.mk.injEq] at h
      obtain ⟨h1, h2⟩ := h
      rcases o with _ | r
      · simp at h2
      · simp only [Option.some.injEq] at h2
        subst h2
        obtain ⟨hs, hm⟩ := ih p r hr
        constructor
        · rw [← h1, hs]
          rfl
        · rw [← h1]
          simp only [List.mem_cons, not_or]
          exact ⟨fun e => hc e.symm, hm⟩

theorem splitn_cons_of_sep (sep : Char) (n : Nat) (pre rest : List Char)
    (h : sep ∉ pre) :
    splitn sep (n + 2) (pre ++ sep :: rest) = pre :: splitn sep (n + 1) rest := by
  rw [splitn, splitAtSep_append sep pre rest h]

theorem splitn_two_last (sep : Char) (n : Nat) (s : List Char) (h : sep ∉ s) :
    splitn sep (n + 2) s = [s] := by
  rw [splitn, splitAtSep_of_not_mem sep s h]

theorem splitn4_three (a b c : List Char)
    (ha : '.' ∉ a) (hb : '.' ∉ b) (hc : '.' ∉ c) :
    splitn '.' 4 (a ++ '.' :: (b ++ '.' :: c)) = [a, b, c] := by
  rw [show (4 : Nat) = 2 + 2 from rfl, splitn_cons_of_sep '.' 2 a _ ha,
    show (2 + 1 : Nat) = 1 + 2 from rfl, splitn_cons_of_sep '.' 1 b c hb,
    show (1 + 1 : Nat) = 0 + 2 from rfl, splitn_two_last '.' 0 c hc]

theorem splitn_length (sep : Char) :
    ∀ (n : Nat) (s : List Char),
      (splitn sep (n + 1) s).length = min (s.count sep + 1) (n + 1) := by
  intro n
  induction n with
  | zero =>
    intro s
    rw [show (0 + 1 : Nat) = 1 from rfl, splitn]
    simp only [List.length_singleton]
    omega
  | succ n ih =>
    intro s
    rw [show (n + 1 + 1 : Nat) = n + 2 from rfl, splitn]
    rcases h1 : splitAtSep sep s with ⟨p, o⟩
    rcases o with _ | r
    · obtain ⟨hs, hm⟩ := splitAtSep_inv_none sep s p h1
      have hc : s.count sep = 0 := by
        rw [hs]
        exact List.count_eq_zero.mpr hm
      simp only [List.length_singleton, hc]
      omega
    · obtain ⟨hs, hm⟩ := splitAtSep_inv_some sep s p r h1
      have hc : s.count sep = r.count sep + 1 := by
        rw [hs]
        simp [List.count_append, List.count_eq_zero.mpr hm]
      simp only [List.length_cons, ih r, hc]
      omega

theorem splitn4_inv (s a b c : List Char) (h : splitn '.' 4 s = [a, b, c]) :
    s = a ++ '.' :: (b ++ '.' :: c) ∧ '.' ∉ a ∧ '.' ∉ b ∧ '.' ∉ c := by
  rw [show (4 : Nat) = 2 + 2 from rfl, splitn] at h
  rcases h1 : splitAtSep '.' s with ⟨p1, o1⟩
  rw [h1] at h
  rcases o1 with _ | r1
  · simp at h
  · obtain ⟨hs1, hm1⟩ := splitAtSep_inv_some '.' s p1 r1 h1
    simp only [List.cons.injEq] at h
    obtain ⟨ha, h⟩ := h
    rw [show (2 + 1 : Nat) = 1 + 2 from rfl, splitn] at h
    rcases h2 : splitAtSep '.' r1 with ⟨p2, o2⟩
    rw [h2] at h
    rcases o2 with _ | r2
    · simp at h
    · obtain ⟨hs2, hm2⟩ := splitAtSep_inv_some '.' r1 p2 r2 h2
      simp only [List.cons.injEq] at h
      obtain ⟨hb2, h⟩ := h
      rw [show (1 + 1 : Nat) = 0 + 2 from rfl, splitn] at h
      rcases h3 : splitAtSep '.' r2 with ⟨p3, o3⟩
      rw [h3] at h
      rcases o3 with _ | r3
      · obtain ⟨hs3, hm3⟩ := splitAtSep_inv_none '.' r2 p3 h3
        simp only [List.cons.injEq, and_true] at h
        refine ⟨?_, ?_, ?_, ?_⟩
        · rw [← ha, ← hb2, ← h, hs1, hs2, hs3]
        · rw [← ha]
          exact hm1
        · rw [← hb2]
          exact hm2
        · rw [← h]
          exact hm3
      · simp only [List.cons.injEq] at h
        obtain ⟨-, h⟩ := h
        have hl := splitn_length '.' 0 r3
        rw [h] at hl
        simp only [List.length_nil] at hl
        omega

theorem rsplitn2Second_append (pre sig : List Char) (h : '.' ∉ sig) :
    rsplitn2Second '.' (pre ++ '.' :: sig) = some pre := by
  unfold rsplitn2Second
  have hrev : (pre ++ '.' :: sig).reverse = sig.reverse ++ '.' :: pre.reverse := by
    simp
  rw [hrev, splitAtSep_append '.' sig.reverse pre.reverse (by simpa using h)]
  simp

/-! ### header serializer lemmas -/

theorem completeHeaderFromJson_toJson (ch : CompleteHeader) :
    completeHeaderFromJson (completeHeaderToJson ch) = some ch := by
  rcases ch with ⟨a, cty, f1, f2, f3, f4, f5⟩
  cases cty <;> cases f1 <;> cases f2 <;> cases f3 <;> cases f4 <;> cases f5 <;> rfl

theorem setStr_eq_some (cur : Option String) (v : Json) (w : Option String)
    (h : setStr cur v = some w) :
    cur = none ∧ ∃ s, v = Json.str s ∧ w = some s := by
  cases cur <;> cases v <;> simp_all [setStr]

theorem hdrStep_alg_of_ne (acc acc₁ : HdrAcc) (k : String) (v : Json)
    (hk : ¬k = "alg") (h : hdrStep acc (k, v) = some acc₁) :
    acc₁.alg = acc.alg := by
  simp only [hdrStep] at h
  rw [if_neg hk] at h
  by_cases h2 : k = "cty"
  · rw [if_pos h2] at h
    obtain ⟨w, -, rfl⟩ := Option.map_eq_some'.mp h
    rfl
  rw [if_neg h2] at h
  by_cases h3 : k = "jku"
  · rw [if_pos h3] at h
    obtain ⟨w, -, rfl⟩ := Option.map_eq_some'.mp h
    rfl
  rw [if_neg h3] at h
  by_cases h4 : k = "kid"
  · rw [if_pos h4] at h
    obtain ⟨w, -, rfl⟩ := Option.map_eq_some'.mp h
    rfl
  rw [if_neg h4] at h
  by_cases h5 : k = "x5u"
  · rw [if_pos h5] at h
    obtain ⟨w, -, rfl⟩ := Option.map_eq_some'.mp h
    rfl
  rw [if_neg h5] at h
  by_cases h6 : k = "x5t"
  · rw [if_pos h6] at h
    obtain ⟨w, -, rfl⟩ := Option.map_eq_some'.mp h
    rfl
  rw [if_neg h6] at h
  by_cases h7 : k = "typ"
  · rw [if_pos h7] at h
    obtain ⟨w, -, rfl⟩ := Option.map_eq_some'.mp h
    rfl
  rw [if_neg h7] at h
  simp only [Option.some.injEq] at h
  rw [← h]

theorem hdrStep_alg_eq (acc acc₁ : HdrAcc) (v : Json)
    (h : hdrStep acc ("alg", v) = some acc₁) :
    acc.alg = none ∧ ∃ s, v = Json.str s ∧ acc₁.alg = some s := by
  have e : hdrStep acc ("alg", v) =
      (setStr acc.alg v).map fun w => { acc with alg := w } := rfl
  rw [e] at h
  obtain ⟨w, hw, rfl⟩ := Option.map_eq_some'.mp h
  obtain ⟨hcur, t, hv, hws⟩ := setStr_eq_some acc.alg v w hw
  exact ⟨hcur, t, hv, by rw [hws]⟩

theorem hdrFold_alg :
    ∀ (fields : List (String × Json)) (acc acc₁ : HdrAcc),
      hdrFold acc fields = some acc₁ →
      (algEntries fields = [] ∧ acc₁.alg = acc.alg) ∨
      (∃ s, acc.alg = none ∧ algEntries fields = [("alg", Json.str s)] ∧
        acc₁.alg = some s) := by
  intro fields
  induction fields with
  | nil =>
    intro acc acc₁ h
    simp only [hdrFold, Option.some.injEq] at h
    subst h
    exact Or.inl ⟨rfl, rfl⟩
  | cons kv rest ih =>
    intro acc acc₁ h
    rcases kv with ⟨k, v⟩
    rcases hs : hdrStep acc (k, v) with _ | acc₂
    · rw [hdrFold, hs] at h
      simp at h
    · rw [hdrFold, hs] at h
      by_cases hk : k = "alg"
      · subst hk
        obtain ⟨hnone, t, hv, ha2⟩ := hdrStep_alg_eq acc acc₂ v hs
        subst hv
        rcases ih acc₂ acc₁ h with ⟨he, hal⟩ | ⟨t2, hn2, -, -⟩
        · refine Or.inr ⟨t, hnone, ?_, by rw [hal, ha2]⟩
          have hcons : algEntries (("alg", Json.str t) :: rest) =
              ("alg", Json.str t) :: algEntries rest := by
            simp [algEntries]
          rw [hcons, he]
        · rw [ha2] at hn2
          exact absurd hn2 (by simp)
      · have hpres : acc₂.alg = acc.alg := hdrStep_alg_of_ne acc acc₂ k v hk hs
        have hent : algEntries ((k, v) :: rest) = algEntries rest := by
          simp [algEntries, List.filter_cons, hk]
        rcases ih acc₂ acc₁ h with ⟨he, hal⟩ | ⟨t, hn, he, hal⟩
        · exact Or.inl ⟨by rw [hent, he], by rw [hal, hpres]⟩
        · exact Or.inr ⟨t, by rw [← hpres, hn], by rw [hent, he], hal⟩

theorem completeHeaderFromJson_alg (fields : List (String × Json))
    (ch : CompleteHeader)
    (h : completeHeaderFromJson (Json.obj fields) = some ch) :
    algEntries fields = [("alg", Json.str ch.algorithm)] := by
  simp only [completeHeaderFromJson] at h
  split at h
  · exact absurd h (by simp)
  next acc hf =>
    split at h
    · exact absurd h (by simp)
    next a ha =>
      simp only [Option.some.injEq] at h
      subst h
      rcases hdrFold_alg fields {} acc hf with ⟨-, hal⟩ | ⟨t, -, he, hal⟩
      · rw [ha] at hal
        exact absurd hal (by simp)
      · rw [ha] at hal
        simp only [Option.some.injEq] at hal
        show algEntries fields = [("alg", Json.str a)]
        rw [hal]
        exact he

theorem contentTypeOf_inv_unsupported (o : Option String) (c : String)
    (h : contentTypeOf o = .error (ParseError.unsupportedContentType c)) :
    o = some c ∧ eqIgnoreAsciiCase c "json" = false ∧
      eqIgnoreAsciiCase c "cbor" = false := by
  rcases o with _ | t
  · simp [contentTypeOf] at h
  · simp only [contentTypeOf] at h
    by_cases h1 : eqIgnoreAsciiCase t "json"
    · rw [if_pos h1] at h
      simp at h
    · rw [if_neg h1] at h
      by_cases h2 : eqIgnoreAsciiCase t "cbor"
      · rw [if_pos h2] at h
        simp at h
      · rw [if_neg h2] at h
        simp only [Except.error.injEq, ParseError.unsupportedContentType.injEq] at h
        subst h
        exact ⟨rfl, by simpa using h1, by simpa using h2⟩

/-! ### parser lemmas -/

theorem contentTypeOf_error (o : Option String) (e : ParseError)
    (h : contentTypeOf o = .error e) :
    ∃ t, o = some t ∧ e = ParseError.unsupportedContentType t := by
  rcases o with _ | t
  · simp [contentTypeOf] at h
  · simp only [contentTypeOf] at h
    by_cases h1 : eqIgnoreAsciiCase t "json"
    · rw [if_pos h1] at h
      simp at h
    · rw [if_neg h1] at h
      by_cases h2 : eqIgnoreAsciiCase t "cbor"
      · rw [if_pos h2] at h
        simp at h
      · rw [if_neg h2] at h
        simp only [Except.error.injEq] at h
        exact ⟨t, rfl, h.symm⟩

theorem try_from_ok (jsonParse : List Nat → Option Json)
    (a b c : List Char) (hbytes cb sb : List Nat) (j : Json)
    (ch : CompleteHeader) (ct : ContentType)
    (ha : '.' ∉ a) (hbm : '.' ∉ b) (hcm : '.' ∉ c)
    (h1 : base64Decode a = some hbytes) (h2 : base64Decode b = some cb)
    (h3 : decodeSignature c = some sb) (h4 : jsonParse hbytes = some j)
    (h5 : completeHeaderFromJson j = some ch)
    (h6 : contentTypeOf ch.content_type = .ok ct) :
    UntrustedToken.try_from jsonParse (a ++ '.' :: (b ++ '.' :: c)) =
      .ok { signed_data := a ++ '.' :: b, header := ch.inner,
            algorithm := ch.algorithm, content_type := ct,
            serialized_claims := cb, signature := sb } := by
  have hr : rsplitn2Second '.' (a ++ '.' :: (b ++ '.' :: c)) = some (a ++ '.' :: b) := by
    have he : a ++ '.' :: (b ++ '.' :: c) = (a ++ '.' :: b) ++ '.' :: c := by simp
    rw [he]
    exact rsplitn2Second_append (a ++ '.' :: b) c hcm
  simp only [UntrustedToken.try_from, splitn4_three a b c ha hbm hcm,
    h1, h2, h3, h4, h5, h6, hr, Option.getD_some]

theorem try_from_ok_inv (jsonParse : List Nat → Option Json)
    (s : List Char) (ut : UntrustedToken)
    (h : UntrustedToken.try_from jsonParse s = .ok ut) :
    ∃ pre sig, s = pre ++ '.' :: sig ∧ '.' ∉ sig ∧ ut.signed_data = pre := by
  simp only [UntrustedToken.try_from] at h
  split at h
  next headerSeg claimsSeg signatureSeg heq =>
    obtain ⟨hs, hma, hmb, hmc⟩ := splitn4_inv s _ _ _ heq
    split at h
    · exact absurd h (by simp)
    split at h
    · exact absurd h (by simp)
    split at h
    · exact absurd h (by simp)
    split at h
    · exact absurd h (by simp)
    split at h
    · exact absurd h (by simp)
    split at h
    · exact absurd h (by simp)
    simp only [Except.ok.injEq] at h
    subst h
    refine ⟨headerSeg ++ '.' :: claimsSeg, signatureSeg, ?_, hmc, ?_⟩
    · rw [hs]
      simp
    · have he2 : headerSeg ++ '.' :: (claimsSeg ++ '.' :: signatureSeg) =
          (headerSeg ++ '.' :: claimsSeg) ++ '.' :: signatureSeg := by simp
      show (rsplitn2Second '.' s).getD [] = headerSeg ++ '.' :: claimsSeg
      rw [hs, he2, rsplitn2Second_append _ _ hmc]
      rfl
  next => exact absurd h (by simp)

theorem try_from_not_three (jsonParse : List Nat → Option Json) (s : List Char)
    (h : (splitn '.' 4 s).length ≠ 3) :
    UntrustedToken.try_from jsonParse s = .error ParseError.invalidTokenStructure := by
  rcases hsp : splitn '.' 4 s with _ | ⟨x, _ | ⟨y, _ | ⟨z, _ | ⟨w, t⟩⟩⟩⟩
  · simp [UntrustedToken.try_from, hsp]
  · simp [UntrustedToken.try_from, hsp]
  · simp [UntrustedToken.try_from, hsp]
  · exact absurd (by rw [hsp]; rfl) h
  · simp [UntrustedToken.try_from, hsp]

theorem try_from_three_ne_invalid (jsonParse : List Nat → Option Json)
    (s : List Char) (a b c : List Char) (hsp : splitn '.' 4 s = [a, b, c]) :
    UntrustedToken.try_from jsonParse s ≠ .error ParseError.invalidTokenStructure := by
  intro habs
  simp only [UntrustedToken.try_from, hsp] at habs
  split at habs
  · simp at habs
  split at habs
  · simp at habs
  split at habs
  · simp at habs
  split at habs
  · simp at habs
  split at habs
  · simp at habs
  split at habs
  next e heq =>
    obtain ⟨t, -, he⟩ := contentTypeOf_error _ e heq
    rw [he] at habs
    simp at habs
  simp at habs

/-! ### concrete instances used by witnesses -/

/-- A trivial symmetric algorithm instance (unit keys, unit signature,
empty signature bytes, verification always succeeds). -/
def unitAlg : Algorithm Unit Unit Unit :=
  { name := "HS256", sign := fun _ _ => (),
    verify_signature := fun _ _ _ => true,
    sig_try_from_slice := fun _ => some (),
    sig_as_bytes := fun _ => [] }

/-- Like `unitAlg` but verification always fails. -/
def unitAlgFalse : Algorithm Unit Unit Unit :=
  { name := "HS256", sign := fun _ _ => (),
    verify_signature := fun _ _ _ => false,
    sig_try_from_slice := fun _ => some (),
    sig_as_bytes := fun _ => [] }

/-- Like `unitAlg` but with 32-byte signatures, so that signature bytes
of any other length fail to parse (as all real algorithms of the crate
behave). -/
def unitAlg32 : Algorithm Unit Unit Unit :=
  { name := "HS256", sign := fun _ _ => (),
    verify_signature := fun _ _ _ => true,
    sig_try_from_slice := fun bs => if bs.length = 32 then some () else none,
    sig_as_bytes := fun _ => List.replicate 32 0 }

/-- Wire header JSON of `unitAlg` for the plain variant. -/
def witHeaderJson : Json := completeHeaderToJson (tokenCompleteHeader unitAlg {})

/-- Wire header JSON of `unitAlg` for the compact variant. -/
def witHeaderJsonCbor : Json :=
  completeHeaderToJson (compactTokenCompleteHeader unitAlg {})

/-- A concrete header serializer distinguishing the two wire headers. -/
def witJsonBytes : Json → List Nat :=
  fun j => if (jsonLookup j "cty").isSome then [2] else [1]

/-- A concrete JSON text parser inverting `witJsonBytes` on the two wire
headers. -/
def witJsonParse : List Nat → Option Json :=
  fun bs => if bs = [2] then some witHeaderJsonCbor else some witHeaderJson

/-- Concrete claims serializers for claims of type `Nat`. -/
def witClaimsToJson : Nat → Option (List Nat) := fun _ => some [10]

/-- Concrete claims JSON deserializer: only the serialized form maps
back. -/
def witClaimsFromJson : List Nat → Option Nat :=
  fun bs => if bs = [10] then some 7 else none

/-- Concrete claims CBOR serializer. -/
def witClaimsToCbor : Nat → Option (List Nat) := fun _ => some [20]

/-- Concrete claims CBOR deserializer. -/
def witClaimsFromCbor : List Nat → Option Nat :=
  fun bs => if bs = [20] then some 7 else none

/-! ### the claims -/

/-- C1: whenever the token's declared algorithm name differs from the
algorithm instance's static name, `validate_integrity` fails with the
algorithm-mismatch error, whatever the claims bytes, signature bytes,
deserializers and key are: no signature reconstruction, claims parsing
or verification influences the result. -/
theorem claim_c1 {SK VK Sig T : Type} (A : Algorithm SK VK Sig)
    (dJ dC : List Nat → Option T) (t : UntrustedToken) (vk : VK)
    (h : A.name ≠ t.algorithm) :
    validate_integrity A dJ dC t vk = .error ValidationError.algorithmMismatch := by
  simp only [validate_integrity, if_pos h]

/-- Witness for C1 at a concrete token declaring algorithm "none". -/
theorem claim_c1_witness :
    validate_integrity unitAlg witClaimsFromJson witClaimsFromCbor
      { signed_data := [], header := {}, algorithm := "none",
        content_type := ContentType.json, serialized_claims := [3],
        signature := [4] } () =
      .error ValidationError.algorithmMismatch :=
  claim_c1 unitAlg witClaimsFromJson witClaimsFromCbor _ () (by decide)

/-- C4: `UntrustedToken::try_from` returns the invalid-token-structure
error exactly when the input does not consist of exactly three
separator-separated segments (two separator occurrences); with exactly
three segments this error is never returned. -/
theorem claim_c4 (jsonParse : List Nat → Option Json) (s : List Char) :
    UntrustedToken.try_from jsonParse s = .error ParseError.invalidTokenStructure ↔
      s.count '.' ≠ 2 := by
  have hlen : (splitn '.' 4 s).length = min (s.count '.' + 1) 4 :=
    splitn_length '.' 3 s
  constructor
  · intro h hc
    rw [hc] at hlen
    have h3 : (splitn '.' 4 s).length = 3 := by omega
    rcases hsp : splitn '.' 4 s with _ | ⟨a, _ | ⟨b, _ | ⟨c, _ | ⟨d, t⟩⟩⟩⟩ <;>
      rw [hsp] at h3 <;> simp at h3
    exact try_from_three_ne_invalid jsonParse s a b c hsp h
  · intro hc
    apply try_from_not_three
    omega

/-- Witness for C4: a two-segment input is rejected as structurally
invalid, a three-segment one is not. -/
theorem claim_c4_witness :
    UntrustedToken.try_from witJsonParse ['x', '.', 'y'] =
      .error ParseError.invalidTokenStructure ∧
    UntrustedToken.try_from witJsonParse ['x', '.', 'y', '.', 'z'] ≠
      .error ParseError.invalidTokenStructure :=
  ⟨(claim_c4 witJsonParse ['x', '.', 'y']).mpr (by decide),
   fun h => absurd ((claim_c4 witJsonParse _).mp h) (by decide)⟩

/-- Unfolding of `eqIgnoreAsciiCase` to list equality. -/
theorem eqIC_iff (a b : String) :
    eqIgnoreAsciiCase a b = true ↔
      a.data.map asciiLowercase = b.data.map asciiLowercase := by
  simp [eqIgnoreAsciiCase]

/-- C6: the content type is determined during parsing as: JSON when the
`cty` field is absent or matches "json" up to ASCII case; CBOR when it
matches "cbor"; any other string fails with the unsupported-content-type
error carrying exactly that string, and that error only ever carries a
string matching neither "json" nor "cbor". -/
theorem claim_c6 :
    contentTypeOf none = .ok ContentType.json ∧
    (∀ c : String, eqIgnoreAsciiCase c "json" = true →
      contentTypeOf (some c) = .ok ContentType.json) ∧
    (∀ c : String, eqIgnoreAsciiCase c "cbor" = true →
      contentTypeOf (some c) = .ok ContentType.cbor) ∧
    (∀ c : String, eqIgnoreAsciiCase c "json" = false →
      eqIgnoreAsciiCase c "cbor" = false →
      contentTypeOf (some c) = .error (ParseError.unsupportedContentType c)) ∧
    (∀ (p : List Nat → Option Json) (s : List Char) (c : String),
      UntrustedToken.try_from p s = .error (ParseError.unsupportedContentType c) →
      eqIgnoreAsciiCase c "json" = false ∧ eqIgnoreAsciiCase c "cbor" = false) := by
  refine ⟨rfl, ?_, ?_, ?_, ?_⟩
  · intro c h
    simp [contentTypeOf, h]
  · intro c h
    have hj : eqIgnoreAsciiCase c "json" = false := by
      cases hcase : eqIgnoreAsciiCase c "json"
      · rfl
      · have e1 := (eqIC_iff c "json").mp hcase
        have e2 := (eqIC_iff c "cbor").mp h
        exact absurd (e2.symm.trans e1) (by decide)
    simp [contentTypeOf, hj, h]
  · intro c h1 h2
    simp [contentTypeOf, h1, h2]
  · intro p s c h
    simp only [UntrustedToken.try_from] at h
    split at h
    · split at h
      · simp at h
      split at h
      · simp at h
      split at h
      · simp at h
      split at h
      · simp at h
      split at h
      · simp at h
      split at h
      next e heq =>
        simp only [Except.error.injEq] at h
        rw [h] at heq
        obtain ⟨-, h1, h2⟩ := contentTypeOf_inv_unsupported _ c heq
        exact ⟨h1, h2⟩
      simp at h
    · simp at h

/-- Witness for C6 at concrete content-type strings. -/
theorem claim_c6_witness :
    contentTypeOf (some "Json") = .ok ContentType.json ∧
    contentTypeOf (some "CBOR") = .ok ContentType.cbor ∧
    contentTypeOf (some "txt") = .error (ParseError.unsupportedContentType "txt") :=
  ⟨claim_c6.2.1 "Json" (by decide), claim_c6.2.2.1 "CBOR" (by decide),
   claim_c6.2.2.2.1 "txt" (by decide) (by decide)⟩

/-- C7: claims deserialization precedes signature verification.  When
the algorithm name matches and the signature bytes reconstruct, a claims
deserialization failure yields the malformed-claims error matching the
content type, regardless of whether verification would succeed; and the
invalid-signature error is only ever returned when the claims bytes
deserialized successfully. -/
theorem claim_c7 {SK VK Sig T : Type} (A : Algorithm SK VK Sig)
    (dJ dC : List Nat → Option T) (t : UntrustedToken) (vk : VK) :
    (A.name = t.algorithm →
      ∀ g, A.sig_try_from_slice t.signature = some g →
      (t.content_type = ContentType.json → dJ t.serialized_claims = none →
        validate_integrity A dJ dC t vk = .error ValidationError.malformedClaims) ∧
      (t.content_type = ContentType.cbor → dC t.serialized_claims = none →
        validate_integrity A dJ dC t vk =
          .error ValidationError.malformedCborClaims)) ∧
    (validate_integrity A dJ dC t vk = .error ValidationError.invalidSignature →
      (t.content_type = ContentType.json →
        ∃ c, dJ t.serialized_claims = some c) ∧
      (t.content_type = ContentType.cbor →
        ∃ c, dC t.serialized_claims = some c)) := by
  constructor
  · intro hname g hg
    have hne : ¬A.name ≠ t.algorithm := fun hne => hne hname
    constructor
    · intro hct hde
      simp only [validate_integrity, if_neg hne, hg, hct, hde]
    · intro hct hde
      simp only [validate_integrity, if_neg hne, hg, hct, hde]
  · intro h
    by_cases hname : A.name ≠ t.algorithm
    · rw [validate_integrity, if_pos hname] at h
      simp at h
    · simp only [validate_integrity, if_neg hname] at h
      rcases hsig : A.sig_try_from_slice t.signature with _ | g
      · rw [hsig] at h
        simp at h
      · rw [hsig] at h
        constructor
        · intro hct
          rw [hct] at h
          rcases hde : dJ t.serialized_claims with _ | c
          · rw [hde] at h
            simp at h
          · exact ⟨c, rfl⟩
        · intro hct
          rw [hct] at h
          rcases hde : dC t.serialized_claims with _ | c
          · rw [hde] at h
            simp at h
          · exact ⟨c, rfl⟩

/-- Witness for C7: with a matching name, parseable signature bytes and
undeserializable claims, the result is malformed-claims even though
verification would return false. -/
theorem claim_c7_witness :
    validate_integrity unitAlgFalse witClaimsFromJson witClaimsFromCbor
      { signed_data := [], header := {}, algorithm := "HS256",
        content_type := ContentType.json, serialized_claims := [99],
        signature := [] } () =
      .error ValidationError.malformedClaims :=
  ((claim_c7 unitAlgFalse witClaimsFromJson witClaimsFromCbor _ ()).1
    rfl () rfl).1 rfl (by decide)

/-- C8: the wire header stamped by `token` carries the algorithm's
static name as `alg` and no `cty` field; the one stamped by
`compact_token` carries the static name and `cty` "CBOR"; the
caller-supplied header never contributes the algorithm name. -/
theorem claim_c8 {SK VK Sig : Type} (A : Algorithm SK VK Sig) (h : Header) :
    (tokenCompleteHeader A h).algorithm = A.name ∧
    (tokenCompleteHeader A h).content_type = none ∧
    (compactTokenCompleteHeader A h).algorithm = A.name ∧
    (compactTokenCompleteHeader A h).content_type = some "CBOR" ∧
    jsonLookup (completeHeaderToJson (tokenCompleteHeader A h)) "alg" =
      some (Json.str A.name) ∧
    jsonLookup (completeHeaderToJson (tokenCompleteHeader A h)) "cty" = none ∧
    jsonLookup (completeHeaderToJson (compactTokenCompleteHeader A h)) "alg" =
      some (Json.str A.name) ∧
    jsonLookup (completeHeaderToJson (compactTokenCompleteHeader A h)) "cty" =
      some (Json.str "CBOR") := by
  refine ⟨rfl, rfl, rfl, rfl, rfl, ?_, rfl, rfl⟩
  rcases h with ⟨f1, f2, f3, f4, f5⟩
  cases f1 <;> cases f2 <;> cases f3 <;> cases f4 <;> cases f5 <;> rfl

/-- Witness for C8 at the concrete unit algorithm and default header. -/
theorem claim_c8_witness :
    (tokenCompleteHeader unitAlg {}).algorithm = unitAlg.name ∧
    (tokenCompleteHeader unitAlg {}).content_type = none ∧
    (compactTokenCompleteHeader unitAlg {}).algorithm = unitAlg.name ∧
    (compactTokenCompleteHeader unitAlg {}).content_type = some "CBOR" ∧
    jsonLookup (completeHeaderToJson (tokenCompleteHeader unitAlg {})) "alg" =
      some (Json.str unitAlg.name) ∧
    jsonLookup (completeHeaderToJson (tokenCompleteHeader unitAlg {})) "cty" = none ∧
    jsonLookup (completeHeaderToJson (compactTokenCompleteHeader unitAlg {})) "alg" =
      some (Json.str unitAlg.name) ∧
    jsonLookup (completeHeaderToJson (compactTokenCompleteHeader unitAlg {})) "cty" =
      some (Json.str "CBOR") :=
  claim_c8 unitAlg {}

/-- C9: the parser's signature buffer of `3 * (len + 3) / 4` bytes always
covers the base64url-decoded length, so signature decoding never fails
for lack of space and, after truncation, stores exactly the decoded
bytes: `decodeSignature` agrees with plain base64url decoding. -/
theorem claim_c9 :
    (∀ seg : List Char, decodeSignature seg = base64Decode seg) ∧
    (∀ (seg : List Char) (bytes : List Nat), base64Decode seg = some bytes →
      bytes.length ≤ 3 * (seg.length + 3) / 4 ∧
        decodeSignature seg = some bytes) := by
  refine ⟨decodeSignature_eq, fun seg bytes h =>
    ⟨base64Decode_length seg bytes h, ?_⟩⟩
  rw [decodeSignature_eq, h]

/-- Witness for C9 at a concrete two-character signature segment. -/
theorem claim_c9_witness :
    ([1] : List Nat).length ≤ 3 * ((['A', 'Q'] : List Char).length + 3) / 4 ∧
      decodeSignature ['A', 'Q'] = some [1] :=
  claim_c9.2 ['A', 'Q'] [1] rfl

/-- The JSON text parser used by the C5 counterexample: every byte
sequence parses as the empty JSON object. -/
def cexJsonParse : List Nat → Option Json := fun _ => some (Json.obj [])

/-- C5 counterexample: a three-segment input whose header segment
decodes to bytes parsed as an `alg`-less JSON object, but whose claims
segment is invalid base64url.  `try_from` reports the base64 error, not
the malformed-header error the claim predicts, because all three base64
decodes run before the header JSON is parsed. -/
theorem claim_c5_counterexample :
    base64Decode ['e', '3', '0'] = some [123, 125] ∧
    cexJsonParse [123, 125] = some (Json.obj []) ∧
    algEntries ([] : List (String × Json)) = [] ∧
    UntrustedToken.try_from cexJsonParse ['e', '3', '0', '.', '%', '.', 'A'] =
      .error ParseError.base64 ∧
    ParseError.base64 ≠ ParseError.malformedHeader :=
  ⟨rfl, rfl, rfl, rfl, by decide⟩

/-- C5 (amended): for a three-segment input whose header, claims and
signature segments all base64url-decode successfully, if the decoded
header JSON object is missing the `alg` key, has a single non-string
`alg` entry, or has a duplicated `alg` key, then `try_from` fails with
the malformed-header error. -/
theorem claim_c5 (jsonParse : List Nat → Option Json) (s : List Char)
    (hSeg cSeg gSeg : List Char) (hb cb sb : List Nat)
    (fields : List (String × Json))
    (hsp : splitn '.' 4 s = [hSeg, cSeg, gSeg])
    (h1 : base64Decode hSeg = some hb)
    (h2 : base64Decode cSeg = some cb)
    (h3 : decodeSignature gSeg = some sb)
    (h4 : jsonParse hb = some (Json.obj fields))
    (hbad : algEntries fields = [] ∨
      (∃ k v, algEntries fields = [(k, v)] ∧ ∀ t, v ≠ Json.str t) ∨
      2 ≤ (algEntries fields).length) :
    UntrustedToken.try_from jsonParse s = .error ParseError.malformedHeader := by
  have hch : completeHeaderFromJson (Json.obj fields) = none := by
    rcases hc : completeHeaderFromJson (Json.obj fields) with _ | ch
    · rfl
    · exfalso
      have halg := completeHeaderFromJson_alg fields ch hc
      rcases hbad with he | ⟨k, v, he, hnstr⟩ | hlen
      · rw [he] at halg
        simp at halg
      · rw [he] at halg
        simp only [List.cons.injEq, Prod.mk.injEq, and_true] at halg
        exact hnstr _ halg.2
      · rw [halg] at hlen
        simp at hlen
  simp only [UntrustedToken.try_from, hsp, h1, h2, h3, h4, hch]

/-- Witness for C5 (amended): an `alg`-less header with well-formed
base64 everywhere is a malformed-header failure. -/
theorem claim_c5_witness :
    UntrustedToken.try_from cexJsonParse ['e', '3', '0', '.', 'C', 'g', '.', 'A', 'A'] =
      .error ParseError.malformedHeader :=
  claim_c5 cexJsonParse _ ['e', '3', '0'] ['C', 'g'] ['A', 'A']
    [123, 125] [10] [0] [] rfl rfl rfl rfl rfl (Or.inl rfl)

/-- C3: the message signed by `token` (and `compact_token`) is exactly
the first two output segments joined by the separator, all ASCII; for
every successfully parsed input the captured `signed_data` is exactly
the span before the final separator; hence parsing a codec-produced
string re-checks exactly the span that was signed. -/
theorem claim_c3 :
    (∀ {SK VK Sig T : Type} (A : Algorithm SK VK Sig)
      (jsonBytes : Json → List Nat) (serJ : T → Option (List Nat))
      (h : Header) (c : T) (sk : SK) (out : List Char),
      token A jsonBytes serJ h c sk = .ok out →
      ∃ cb, serJ c = some cb ∧
        out = (base64Encode (jsonBytes (completeHeaderToJson
                  (tokenCompleteHeader A h))) ++
               '.' :: base64Encode cb) ++
              '.' :: base64Encode (A.sig_as_bytes (A.sign sk
                (base64Encode (jsonBytes (completeHeaderToJson
                  (tokenCompleteHeader A h))) ++
                 '.' :: base64Encode cb))) ∧
        (∀ ch ∈ out, ch.toNat < 128)) ∧
    (∀ {SK VK Sig T : Type} (A : Algorithm SK VK Sig)
      (jsonBytes : Json → List Nat) (serC : T → Option (List Nat))
      (h : Header) (c : T) (sk : SK) (out : List Char),
      compact_token A jsonBytes serC h c sk = .ok out →
      ∃ cb, serC c = some cb ∧
        out = (base64Encode (jsonBytes (completeHeaderToJson
                  (compactTokenCompleteHeader A h))) ++
               '.' :: base64Encode cb) ++
              '.' :: base64Encode (A.sig_as_bytes (A.sign sk
                (base64Encode (jsonBytes (completeHeaderToJson
                  (compactTokenCompleteHeader A h))) ++
                 '.' :: base64Encode cb))) ∧
        (∀ ch ∈ out, ch.toNat < 128)) ∧
    (∀ (p : List Nat → Option Json) (s : List Char) (ut : UntrustedToken),
      UntrustedToken.try_from p s = .ok ut →
      ∃ pre sig, s = pre ++ '.' :: sig ∧ '.' ∉ sig ∧ ut.signed_data = pre) ∧
    (∀ {SK VK Sig T : Type} (A : Algorithm SK VK Sig)
      (jsonBytes : Json → List Nat) (serJ : T → Option (List Nat))
      (h : Header) (c : T) (sk : SK) (out : List Char)
      (p : List Nat → Option Json) (ut : UntrustedToken),
      token A jsonBytes serJ h c sk = .ok out →
      UntrustedToken.try_from p out = .ok ut →
      ∃ cb, serJ c = some cb ∧
        ut.signed_data =
          base64Encode (jsonBytes (completeHeaderToJson
            (tokenCompleteHeader A h))) ++
          '.' :: base64Encode cb) := by
  have htok : ∀ {SK VK Sig T : Type} (A : Algorithm SK VK Sig)
      (jsonBytes : Json → List Nat) (serJ : T → Option (List Nat))
      (h : Header) (c : T) (sk : SK) (out : List Char),
      token A jsonBytes serJ h c sk = .ok out →
      ∃ cb, serJ c = some cb ∧
        out = (base64Encode (jsonBytes (completeHeaderToJson
                  (tokenCompleteHeader A h))) ++
               '.' :: base64Encode cb) ++
              '.' :: base64Encode (A.sig_as_bytes (A.sign sk
                (base64Encode (jsonBytes (completeHeaderToJson
                  (tokenCompleteHeader A h))) ++
                 '.' :: base64Encode cb))) := by
    intro SK VK Sig T A jsonBytes serJ h c sk out ht
    simp only [token] at ht
    rcases hc : serJ c with _ | cb
    · rw [hc] at ht
      simp at ht
    · rw [hc] at ht
      simp only [Except.ok.injEq] at ht
      exact ⟨cb, rfl, ht.symm⟩
  have hascii : ∀ (hseg cseg gseg : List Char),
      (∀ x ∈ hseg, ∃ v, x = b64Char v) → (∀ x ∈ cseg, ∃ v, x = b64Char v) →
      (∀ x ∈ gseg, ∃ v, x = b64Char v) →
      ∀ ch ∈ (hseg ++ '.' :: cseg) ++ '.' :: gseg, ch.toNat < 128 := by
    intro hseg cseg gseg hh hc hg ch hm
    simp only [List.mem_append, List.mem_cons] at hm
    rcases hm with (hm | rfl | hm) | rfl | hm
    · obtain ⟨v, rfl⟩ := hh ch hm
      exact b64Char_ascii v
    · decide
    · obtain ⟨v, rfl⟩ := hc ch hm
      exact b64Char_ascii v
    · decide
    · obtain ⟨v, rfl⟩ := hg ch hm
      exact b64Char_ascii v
  refine ⟨?_, ?_, ?_, ?_⟩
  · intro SK VK Sig T A jsonBytes serJ h c sk out ht
    obtain ⟨cb, hc, hout⟩ := htok A jsonBytes serJ h c sk out ht
    refine ⟨cb, hc, hout, ?_⟩
    rw [hout]
    exact hascii _ _ _ (fun x hx => mem_base64Encode x _ hx)
      (fun x hx => mem_base64Encode x _ hx) (fun x hx => mem_base64Encode x _ hx)
  · intro SK VK Sig T A jsonBytes serC h c sk out ht
    simp only [compact_token] at ht
    rcases hc : serC c with _ | cb
    · rw [hc] at ht
      simp at ht
    · rw [hc] at ht
      simp only [Except.ok.injEq] at ht
      refine ⟨cb, rfl, ht.symm, ?_⟩
      rw [← ht]
      exact hascii _ _ _ (fun x hx => mem_base64Encode x _ hx)
        (fun x hx => mem_base64Encode x _ hx) (fun x hx => mem_base64Encode x _ hx)
  · exact try_from_ok_inv
  · intro SK VK Sig T A jsonBytes serJ h c sk out p ut ht hp
    obtain ⟨cb, hc, hout⟩ := htok A jsonBytes serJ h c sk out ht
    obtain ⟨pre, sig, hsplit, hnm, hsd⟩ := try_from_ok_inv p out ut hp
    refine ⟨cb, hc, ?_⟩
    have e1 : rsplitn2Second '.' out = some pre := by
      rw [hsplit]
      exact rsplitn2Second_append pre sig hnm
    have e2 : rsplitn2Second '.' out =
        some (base64Encode (jsonBytes (completeHeaderToJson
          (tokenCompleteHeader A h))) ++ '.' :: base64Encode cb) := by
      rw [hout]
      exact rsplitn2Second_append _ _ (not_dot_mem_base64Encode _)
    rw [hsd]
    rw [e1] at e2
    simpa using e2

/-- Witness for C3: the four components applied to the concrete unit
algorithm, its concrete token string "AQ.Cg." and its parse. -/
theorem claim_c3_witness :
    (∃ cb, witClaimsToJson 7 = some cb ∧
      (['A', 'Q', '.', 'C', 'g', '.'] : List Char) =
        (base64Encode (witJsonBytes (completeHeaderToJson
            (tokenCompleteHeader unitAlg {}))) ++
         '.' :: base64Encode cb) ++
        '.' :: base64Encode (unitAlg.sig_as_bytes (unitAlg.sign ()
          (base64Encode (witJsonBytes (completeHeaderToJson
            (tokenCompleteHeader unitAlg {}))) ++
           '.' :: base64Encode cb))) ∧
      (∀ ch ∈ (['A', 'Q', '.', 'C', 'g', '.'] : List Char), ch.toNat < 128)) ∧
    (∃ pre sig, (['A', 'Q', '.', 'C', 'g', '.'] : List Char) =
        pre ++ '.' :: sig ∧ '.' ∉ sig ∧
      ({ signed_data := ['A', 'Q', '.', 'C', 'g'], header := {},
         algorithm := "HS256", content_type := ContentType.json,
         serialized_claims := [10],
         signature := [] } : UntrustedToken).signed_data = pre) :=
  ⟨claim_c3.1 unitAlg witJsonBytes witClaimsToJson {} 7 ()
      ['A', 'Q', '.', 'C', 'g', '.'] rfl,
   claim_c3.2.2.1 witJsonParse ['A', 'Q', '.', 'C', 'g', '.'] _ rfl⟩

/-- C10: an empty third segment is not a structural error: an input
"X.Y." with a well-formed, supported header and valid claims base64
parses successfully into a token with empty signature bytes; under any
algorithm whose signatures cannot be reconstructed from zero bytes,
later validation can only reject it with algorithm-mismatch or
malformed-signature. -/
theorem claim_c10 (jsonParse : List Nat → Option Json) (X Y : List Char)
    (hb cb : List Nat) (j : Json) (ch : CompleteHeader) (ct : ContentType)
    (hX : '.' ∉ X) (hY : '.' ∉ Y)
    (h1 : base64Decode X = some hb) (h2 : base64Decode Y = some cb)
    (h3 : jsonParse hb = some j) (h4 : completeHeaderFromJson j = some ch)
    (h5 : contentTypeOf ch.content_type = .ok ct) :
    ∃ ut, UntrustedToken.try_from jsonParse (X ++ '.' :: (Y ++ ['.'])) = .ok ut ∧
      ut.signature = [] ∧
      ∀ {SK VK Sig T : Type} (A : Algorithm SK VK Sig)
        (dJ dC : List Nat → Option T) (vk : VK),
        A.sig_try_from_slice [] = none →
        (validate_integrity A dJ dC ut vk =
            .error ValidationError.algorithmMismatch ∨
          validate_integrity A dJ dC ut vk =
            .error ValidationError.malformedSignature) := by
  refine ⟨{ signed_data := X ++ '.' :: Y, header := ch.inner,
            algorithm := ch.algorithm, content_type := ct,
            serialized_claims := cb, signature := [] }, ?_, rfl, ?_⟩
  · exact try_from_ok jsonParse X Y [] hb cb [] j ch ct hX hY (by simp)
      h1 h2 rfl h3 h4 h5
  · intro SK VK Sig T A dJ dC vk hs
    by_cases hname : A.name ≠ ch.algorithm
    · left
      simp only [validate_integrity]
      rw [if_pos hname]
    · right
      simp only [validate_integrity]
      rw [if_neg hname, hs]

/-- Witness for C10 at the concrete input "AQ.Cg." and the 32-byte
signature algorithm. -/
theorem claim_c10_witness :
    ∃ ut, UntrustedToken.try_from witJsonParse
        (['A', 'Q'] ++ '.' :: (['C', 'g'] ++ ['.'])) = .ok ut ∧
      ut.signature = [] ∧
      ∀ {SK VK Sig T : Type} (A : Algorithm SK VK Sig)
        (dJ dC : List Nat → Option T) (vk : VK),
        A.sig_try_from_slice [] = none →
        (validate_integrity A dJ dC ut vk =
            .error ValidationError.algorithmMismatch ∨
          validate_integrity A dJ dC ut vk =
            .error ValidationError.malformedSignature) :=
  claim_c10 witJsonParse ['A', 'Q'] ['C', 'g'] [1] [10] witHeaderJson
    (tokenCompleteHeader unitAlg {}) ContentType.json
    (by decide) (by decide) rfl rfl rfl rfl rfl

/-- Core of the round trip: issuing over a complete header `ch` whose
name is the algorithm's and whose content type is supported, then
parsing and validating with the same algorithm and key material,
succeeds and recovers the header and claims. -/
theorem issue_validate_core {SK VK Sig T : Type} (A : Algorithm SK VK Sig)
    (sk : SK) (vk : VK)
    (jsonParse : List Nat → Option Json) (jsonBytes : Json → List Nat)
    (deJ deC : List Nat → Option T) (claims : T)
    (ch : CompleteHeader) (cb : List Nat) (ct : ContentType)
    (hname : ch.algorithm = A.name)
    (hhb : ∀ b ∈ jsonBytes (completeHeaderToJson ch), b < 256)
    (hcb : ∀ b ∈ cb, b < 256)
    (hparse : jsonParse (jsonBytes (completeHeaderToJson ch)) =
      some (completeHeaderToJson ch))
    (hct : contentTypeOf ch.content_type = .ok ct)
    (hsigb : ∀ g : Sig, ∀ b ∈ A.sig_as_bytes g, b < 256)
    (hsigrt : ∀ g : Sig, A.sig_try_from_slice (A.sig_as_bytes g) = some g)
    (hver : ∀ m, A.verify_signature (A.sign sk m) vk m = true)
    (hde : (match ct with
            | ContentType.json => deJ
            | ContentType.cbor => deC) cb = some claims) :
    ∃ ut, UntrustedToken.try_from jsonParse
        ((base64Encode (jsonBytes (completeHeaderToJson ch)) ++
          '.' :: base64Encode cb) ++
         '.' :: base64Encode (A.sig_as_bytes (A.sign sk
           (base64Encode (jsonBytes (completeHeaderToJson ch)) ++
            '.' :: base64Encode cb)))) = .ok ut ∧
      validate_integrity A deJ deC ut vk =
        .ok { header := ch.inner, claims := claims } := by
  have hshape : (base64Encode (jsonBytes (completeHeaderToJson ch)) ++
        '.' :: base64Encode cb) ++
       '.' :: base64Encode (A.sig_as_bytes (A.sign sk
         (base64Encode (jsonBytes (completeHeaderToJson ch)) ++
          '.' :: base64Encode cb))) =
      base64Encode (jsonBytes (completeHeaderToJson ch)) ++
       '.' :: (base64Encode cb ++
         '.' :: base64Encode (A.sig_as_bytes (A.sign sk
           (base64Encode (jsonBytes (completeHeaderToJson ch)) ++
            '.' :: base64Encode cb)))) := by
    simp
  have hdecSig : decodeSignature (base64Encode (A.sig_as_bytes (A.sign sk
      (base64Encode (jsonBytes (completeHeaderToJson ch)) ++
       '.' :: base64Encode cb)))) =
      some (A.sig_as_bytes (A.sign sk
        (base64Encode (jsonBytes (completeHeaderToJson ch)) ++
         '.' :: base64Encode cb))) := by
    rw [decodeSignature_eq]
    exact base64Decode_base64Encode _ (hsigb _)
  have hp := try_from_ok jsonParse
    (base64Encode (jsonBytes (completeHeaderToJson ch)))
    (base64Encode cb)
    (base64Encode (A.sig_as_bytes (A.sign sk
      (base64Encode (jsonBytes (completeHeaderToJson ch)) ++
       '.' :: base64Encode cb))))
    (jsonBytes (completeHeaderToJson ch)) cb
    (A.sig_as_bytes (A.sign sk
      (base64Encode (jsonBytes (completeHeaderToJson ch)) ++
       '.' :: base64Encode cb)))
    (completeHeaderToJson ch) ch ct
    (not_dot_mem_base64Encode _) (not_dot_mem_base64Encode _)
    (not_dot_mem_base64Encode _)
    (base64Decode_base64Encode _ hhb) (base64Decode_base64Encode cb hcb)
    hdecSig hparse (completeHeaderFromJson_toJson ch) hct
  refine ⟨_, by rw [hshape]; exact hp, ?_⟩
  have hne : ¬A.name ≠ ch.algorithm := fun hne => hne hname.symm
  cases ct with
  | json =>
    have hde2 : deJ cb = some claims := hde
    simp only [validate_integrity, if_neg hne, hsigrt, hde2, hver, if_true]
  | cbor =>
    have hde2 : deC cb = some claims := hde
    simp only [validate_integrity, if_neg hne, hsigrt, hde2, hver, if_true]

/-- C2: the round trip.  For any header, any algorithm and key pair
whose signatures verify and whose signature bytes reconstruct, any
header serialization that the JSON parser inverts, and any claims value
whose serialization round-trips, issuing a token (plain or compact),
parsing it and validating it with the same algorithm and key succeeds
and yields a token carrying the original claims (and header). -/
theorem claim_c2 {SK VK Sig T : Type} (A : Algorithm SK VK Sig)
    (sk : SK) (vk : VK)
    (jsonParse : List Nat → Option Json) (jsonBytes : Json → List Nat)
    (serJ serC : T → Option (List Nat)) (deJ deC : List Nat → Option T)
    (h : Header) (claims : T)
    (hhbJ : ∀ b ∈ jsonBytes (completeHeaderToJson (tokenCompleteHeader A h)),
      b < 256)
    (hhbC : ∀ b ∈ jsonBytes (completeHeaderToJson (compactTokenCompleteHeader A h)),
      b < 256)
    (hparseJ : jsonParse (jsonBytes (completeHeaderToJson
        (tokenCompleteHeader A h))) =
      some (completeHeaderToJson (tokenCompleteHeader A h)))
    (hparseC : jsonParse (jsonBytes (completeHeaderToJson
        (compactTokenCompleteHeader A h))) =
      some (completeHeaderToJson (compactTokenCompleteHeader A h)))
    (hsigb : ∀ g : Sig, ∀ b ∈ A.sig_as_bytes g, b < 256)
    (hsigrt : ∀ g : Sig, A.sig_try_from_slice (A.sig_as_bytes g) = some g)
    (hver : ∀ m, A.verify_signature (A.sign sk m) vk m = true)
    (cbJ : List Nat) (hserJ : serJ claims = some cbJ)
    (hcbJ : ∀ b ∈ cbJ, b < 256) (hdeJ : deJ cbJ = some claims)
    (cbC : List Nat) (hserC : serC claims = some cbC)
    (hcbC : ∀ b ∈ cbC, b < 256) (hdeC : deC cbC = some claims) :
    (∃ out ut, token A jsonBytes serJ h claims sk = .ok out ∧
      UntrustedToken.try_from jsonParse out = .ok ut ∧
      validate_integrity A deJ deC ut vk =
        .ok { header := h, claims := claims }) ∧
    (∃ out ut, compact_token A jsonBytes serC h claims sk = .ok out ∧
      UntrustedToken.try_from jsonParse out = .ok ut ∧
      validate_integrity A deJ deC ut vk =
        .ok { header := h, claims := claims }) := by
  constructor
  · have ht : token A jsonBytes serJ h claims sk = .ok
        ((base64Encode (jsonBytes (completeHeaderToJson
            (tokenCompleteHeader A h))) ++
          '.' :: base64Encode cbJ) ++
         '.' :: base64Encode (A.sig_as_bytes (A.sign sk
           (base64Encode (jsonBytes (completeHeaderToJson
             (tokenCompleteHeader A h))) ++
            '.' :: base64Encode cbJ)))) := by
      simp [token, hserJ]
    obtain ⟨ut, hp, hv⟩ := issue_validate_core A sk vk jsonParse jsonBytes
      deJ deC claims (tokenCompleteHeader A h) cbJ ContentType.json rfl
      hhbJ hcbJ hparseJ rfl hsigb hsigrt hver hdeJ
    exact ⟨_, ut, ht, hp, hv⟩
  · have ht : compact_token A jsonBytes serC h claims sk = .ok
        ((base64Encode (jsonBytes (completeHeaderToJson
            (compactTokenCompleteHeader A h))) ++
          '.' :: base64Encode cbC) ++
         '.' :: base64Encode (A.sig_as_bytes (A.sign sk
           (base64Encode (jsonBytes (completeHeaderToJson
             (compactTokenCompleteHeader A h))) ++
            '.' :: base64Encode cbC)))) := by
      simp [compact_token, hserC]
    obtain ⟨ut, hp, hv⟩ := issue_validate_core A sk vk jsonParse jsonBytes
      deJ deC claims (compactTokenCompleteHeader A h) cbC ContentType.cbor rfl
      hhbC hcbC hparseC rfl hsigb hsigrt hver hdeC
    exact ⟨_, ut, ht, hp, hv⟩

/-- Witness for C2 at the concrete unit algorithm, default header and
claims value 7, in both the JSON and the CBOR variant. -/
theorem claim_c2_witness :
    (∃ out ut, token unitAlg witJsonBytes witClaimsToJson {} 7 () = .ok out ∧
      UntrustedToken.try_from witJsonParse out = .ok ut ∧
      validate_integrity unitAlg witClaimsFromJson witClaimsFromCbor ut () =
        .ok { header := {}, claims := 7 }) ∧
    (∃ out ut, compact_token unitAlg witJsonBytes witClaimsToCbor {} 7 () = .ok out ∧
      UntrustedToken.try_from witJsonParse out = .ok ut ∧
      validate_integrity unitAlg witClaimsFromJson witClaimsFromCbor ut () =
        .ok { header := {}, claims := 7 }) :=
  claim_c2 unitAlg () () witJsonParse witJsonBytes witClaimsToJson witClaimsToCbor
    witClaimsFromJson witClaimsFromCbor {} 7
    (by decide) (by decide) rfl rfl
    (fun _ => by intro b hb; simp [unitAlg] at hb) (fun _ => rfl)
    (fun _ => rfl) [10] rfl (by decide) rfl [20] rfl (by decide) rfl

end JwtCompact
